import Mathlib

/-!
# Verification of the reddit-viewer HTML feed extractor

A shallow embedding of the repository's core: the predicate-driven tree
search engine (`BreadthFirstSearch` / `DepthFirstSearch` with composable
`SearchCriteria`) and the feed extraction pipeline (`getSiteTable`,
`tryParseFeedPost`, `getFeedPosts`, post classification, and the
continuation-token construction performed by `RedditParser.Feed`).

Modelling conventions:
* Go's `*html.Node` tree is the inductive `HNode` (node type, tag atom,
  data string, attributes, children).  `FirstChild`/`NextSibling` walks
  over siblings become the `children` list.
* Fallible Go functions returning `(T, error)` become `Except GoErr T`.
* A Go runtime panic (nil-pointer dereference, out-of-range slice index)
  is modelled by `Option`: `none` is a panic.
* Go machine integers are modelled as `Int`; `strconv` parsers enforce
  the `int64` range exactly as Go does.
-/

namespace RV

/-- The node types of `golang.org/x/net/html` (`html.NodeType`). -/
inductive NodeType where
  | errorNode
  | textNode
  | documentNode
  | elementNode
  | commentNode
  | doctypeNode
  | rawNode
deriving DecidableEq, Repr

/-- `html.Attribute` (the `Namespace` field is never used by this repo). -/
structure Attribute where
  key : String
  val : String
deriving DecidableEq, Repr

/-- `html.Node`: node type, `DataAtom` (tag identity, modelled as the tag
string), `Data`, the attribute list, and the children in document order
(Go's `FirstChild`/`NextSibling` chain). -/
inductive HNode where
  | mk : NodeType → String → String → List Attribute → List HNode → HNode

/-- `Node.Type`. -/
def HNode.type : HNode → NodeType
  | .mk t _ _ _ _ => t

/-- `Node.DataAtom`. -/
def HNode.tagAtom : HNode → String
  | .mk _ a _ _ _ => a

/-- `Node.Data`. -/
def HNode.data : HNode → String
  | .mk _ _ d _ _ => d

/-- `Node.Attr`. -/
def HNode.attrs : HNode → List Attribute
  | .mk _ _ _ as _ => as

/-- The children of a node, in document order. -/
def HNode.children : HNode → List HNode
  | .mk _ _ _ _ cs => cs

mutual

/-- Number of nodes in a tree (termination measure for the traversals). -/
def HNode.size : HNode → Nat
  | .mk _ _ _ _ cs => 1 + sizeList cs

/-- Total number of nodes in a forest. -/
def sizeList : List HNode → Nat
  | [] => 0
  | c :: cs => HNode.size c + sizeList cs

end

theorem HNode.size_pos (n : HNode) : 1 ≤ n.size := by
  cases n with
  | mk t a d as cs => simp only [HNode.size]; omega

theorem sizeList_append (a b : List HNode) :
    sizeList (a ++ b) = sizeList a + sizeList b := by
  induction a with
  | nil => simp [sizeList]
  | cons x xs ih =>
    show sizeList (x :: (xs ++ b)) = sizeList (x :: xs) + sizeList b
    simp only [sizeList, ih]; omega

theorem size_le_of_mem {c : HNode} {l : List HNode} (h : c ∈ l) :
    HNode.size c ≤ sizeList l := by
  induction l with
  | nil => cases h
  | cons x xs ih =>
    rcases List.mem_cons.mp h with rfl | h
    · simp only [sizeList]; omega
    · have := ih h
      simp only [sizeList]; omega

-- ------------------------------------------------------------------- --
-- Search criteria (parser.go, "Search Criteria" section)
-- ------------------------------------------------------------------- --

/-- `type SearchCriteria func(*html.Node) bool`. -/
def SearchCriteria : Type := HNode → Bool

namespace Crit

/-- `And(criteria ...SearchCriteria)`: true only if every member is true
(Go's loop short-circuits on the first false, as `List.all` does). -/
def And (criteria : List SearchCriteria) : SearchCriteria :=
  fun node => criteria.all fun c => c node

/-- `Or(criteria ...SearchCriteria)`. -/
def Or (criteria : List SearchCriteria) : SearchCriteria :=
  fun node => criteria.any fun c => c node

/-- `Not(criteria SearchCriteria)`. -/
def Not (criteria : SearchCriteria) : SearchCriteria :=
  fun node => !criteria node

end Crit

/-- `IsTag(name atom.Atom)`. -/
def IsTag (name : String) : SearchCriteria :=
  fun node => node.type == NodeType.elementNode && node.tagAtom == name

/-- `HasAttribute(attributeKey string)`. -/
def HasAttribute (attributeKey : String) : SearchCriteria :=
  fun node => node.attrs.any fun attr => attr.key == attributeKey

/-- `HasAttributeWithValue(attributeKey, attributeValue string)`. -/
def HasAttributeWithValue (attributeKey attributeValue : String) : SearchCriteria :=
  fun node => node.attrs.any fun attr =>
    attr.key == attributeKey && attr.val == attributeValue

/-- `RecurseAlways`. -/
def RecurseAlways : SearchCriteria := fun _ => true

/-- `RecurseNever`. -/
def RecurseNever : SearchCriteria := fun _ => false

-- ------------------------------------------------------------------- --
-- A small regular-expression matcher, modelling Go `regexp.MatchString`
-- on the fragment of patterns this repository uses: literal characters,
-- the wildcard dot, and Kleene star applied to a single character.
-- Go's MatchString is unanchored: it reports whether ANY substring of
-- the input matches the pattern.
-- ------------------------------------------------------------------- --

/-- One regular-expression atom: a literal character or the wildcard dot. -/
inductive RTok where
  | lit (c : Char)
  | dot
deriving DecidableEq, Repr

/-- Parse a pattern into (atom, starred?) tokens. -/
def parsePat : List Char → List (RTok × Bool)
  | [] => []
  | '.' :: '*' :: rest => (RTok.dot, true) :: parsePat rest
  | '.' :: rest => (RTok.dot, false) :: parsePat rest
  | c :: '*' :: rest => (RTok.lit c, true) :: parsePat rest
  | c :: rest => (RTok.lit c, false) :: parsePat rest

/-- Does an atom match one character? -/
def tokMatch : RTok → Char → Bool
  | RTok.dot, _ => true
  | RTok.lit c, d => c == d

/-- Does the token list match some prefix of the character list? -/
def prefixMatch : List (RTok × Bool) → List Char → Bool
  | [], _ => true
  | (_, false) :: _, [] => false
  | (t, false) :: ps, c :: cs => tokMatch t c && prefixMatch ps cs
  | (_, true) :: ps, [] => prefixMatch ps []
  | (t, true) :: ps, c :: cs =>
      prefixMatch ps (c :: cs) || (tokMatch t c && prefixMatch ((t, true) :: ps) cs)
termination_by p s => (s.length, p.length)

/-- Unanchored match: the pattern matches starting at some position. -/
def unanchoredMatch (p : List (RTok × Bool)) : List Char → Bool
  | [] => prefixMatch p []
  | c :: cs => prefixMatch p (c :: cs) || unanchoredMatch p cs

/-- Models Go `regexp.MatchString(pattern, s)` for the patterns used in
this repository (`"title.*"`, `"thumbnail.*"`, `".*comments.*"`): an
unanchored match of a star/dot/literal pattern. -/
def regexpMatchString (pattern s : String) : Bool :=
  unanchoredMatch (parsePat pattern.toList) s.toList

/-- `HasAttributeWithValueRegex(attributeKey, attributeRegex string)`:
the match error from `regexp.MatchString` is discarded by the source
(`matched, _ :=`), so the model is total. -/
def HasAttributeWithValueRegex (attributeKey attributeRegex : String) : SearchCriteria :=
  fun node => node.attrs.any fun attr =>
    attr.key == attributeKey && regexpMatchString attributeRegex attr.val

/-- `GetAttribute`'s scan of the attribute list: first matching key wins. -/
def getAttrGo (attributeKey : String) : List Attribute → String × Bool
  | [] => ("", false)
  | attr :: rest =>
      if attr.key == attributeKey then (attr.val, true) else getAttrGo attributeKey rest

/-- `GetAttribute(node *html.Node, attributeKey string) (string, bool)`. -/
def GetAttribute (node : HNode) (attributeKey : String) : String × Bool :=
  getAttrGo attributeKey node.attrs

-- ------------------------------------------------------------------- --
-- The traversal engine (parser.go: BreadthFirstSearch, DepthFirstSearch)
-- ------------------------------------------------------------------- --

/-- The guard of the child-expansion branch shared by both searches:
`node.Type == html.DocumentNode || recurseIf(node)`. -/
def expandOK (recurseIf : SearchCriteria) : SearchCriteria :=
  fun node => node.type == NodeType.documentNode || recurseIf node

/-- The children appended to the worklist when a node is expanded
(empty when the expansion guard fails). -/
def expand (recurseIf : SearchCriteria) (node : HNode) : List HNode :=
  if expandOK recurseIf node then node.children else []

theorem sizeList_expand_lt (recurseIf : SearchCriteria) (n : HNode) :
    sizeList (expand recurseIf n) < HNode.size n := by
  unfold expand
  split
  · cases n with
    | mk t a d as cs => simp only [HNode.children, HNode.size]; omega
  · cases n with
    | mk t a d as cs => simp only [sizeList, HNode.size]; omega

theorem bfs_step_lt (recurseIf : SearchCriteria) (n : HNode) (rest : List HNode) :
    sizeList (rest ++ expand recurseIf n) < sizeList (n :: rest) := by
  have h1 := sizeList_expand_lt recurseIf n
  simp only [sizeList_append, sizeList]
  omega

/-- The `BreadthFirstSearch` loop: pop the candidate from the FRONT of
the queue; return it if it matches; otherwise append its children (if
the node is the document sentinel or the recursion predicate allows) to
the BACK of the queue. -/
def bfsGo (criteria recurseIf : SearchCriteria) (nodes : List HNode) : Option HNode :=
  match nodes with
  | [] => none
  | n :: rest =>
      if criteria n then some n
      else bfsGo criteria recurseIf (rest ++ expand recurseIf n)
termination_by sizeList nodes
decreasing_by
  exact bfs_step_lt recurseIf _ _

/-- `BreadthFirstSearch(root, criteria, recurseIf)`; `none` models the
`ErrSearchFailed` return. -/
def BreadthFirstSearch (root : HNode) (criteria recurseIf : SearchCriteria) : Option HNode :=
  bfsGo criteria recurseIf [root]

theorem getLast?_none {α : Type} {l : List α} (h : l.getLast? = none) : l = [] := by
  cases l with
  | nil => rfl
  | cons x xs => simp [List.getLast?_cons] at h

theorem getLast?_decomp {α : Type} {l : List α} {a : α} (h : l.getLast? = some a) :
    l = l.dropLast ++ [a] :=
  (List.dropLast_append_getLast? a h).symm

theorem dfs_step_lt (recurseIf : SearchCriteria) {nodes : List HNode} {n : HNode}
    (h : nodes.getLast? = some n) :
    sizeList (nodes.dropLast ++ expand recurseIf n) < sizeList nodes := by
  have hd := getLast?_decomp h
  have h1 := sizeList_expand_lt recurseIf n
  have h2 : sizeList nodes = sizeList nodes.dropLast + HNode.size n := by
    conv_lhs => rw [hd]
    simp only [sizeList_append, sizeList]
    omega
  rw [sizeList_append, h2]
  omega

/-- The `DepthFirstSearch` loop: pop the candidate from the BACK of the
list (the top of the stack); return it if it matches; otherwise append
its children (under the same expansion guard) to the BACK. -/
def dfsLoop (criteria recurseIf : SearchCriteria) (nodes : List HNode) : Option HNode :=
  match _h : nodes.getLast? with
  | none => none
  | some n =>
      if criteria n then some n
      else dfsLoop criteria recurseIf (nodes.dropLast ++ expand recurseIf n)
termination_by sizeList nodes
decreasing_by
  exact dfs_step_lt recurseIf _h

/-- `DepthFirstSearch(root, criteria, recurseIf)`; `none` models the
`ErrSearchFailed` return. -/
def DepthFirstSearch (root : HNode) (criteria recurseIf : SearchCriteria) : Option HNode :=
  dfsLoop criteria recurseIf [root]

-- ------------------------------------------------------------------- --
-- Domain model (model.go: Feed, FeedPost, FeedPostType; errors)
-- ------------------------------------------------------------------- --

/-- The error values of the parser: the sentinel errors declared in
parser.go plus `wrapped`, which models `fmt.Errorf("...: %w", err)`. -/
inductive GoErr where
  | searchFailed
  | notAPost
  | postIsAd
  | titleNotFound
  | thumbnailNotFound
  | commentsNotFound
  | wrapped (msg : String) (inner : GoErr)
deriving DecidableEq, Repr

/-- `FeedPostType` (text / link / image / video / gallery). -/
inductive FeedPostType where
  | text
  | link
  | image
  | video
  | gallery
deriving DecidableEq, Repr

/-- A `time.Time` as this code uses it: either the zero value or the
result of `time.UnixMilli(ms).UTC()`. -/
inductive GoTime where
  | zeroTime
  | fromUnixMilliUTC (ms : Int)
deriving DecidableEq, Repr

/-- `FeedPost` (model.go). -/
structure FeedPost where
  id : String
  type : FeedPostType
  title : String
  op : String
  subreddit : String
  timestamp : GoTime
  score : Int
  commentCount : Int
  thumbnailLink : String
  postLink : String
  commentsLink : String
  isSpoiler : Bool
  isNSFW : Bool
deriving DecidableEq, Repr

/-- `Feed` (model.go): ordered posts plus the next-page link. -/
structure Feed where
  posts : List FeedPost
  nextPageLink : String
deriving DecidableEq, Repr

-- ------------------------------------------------------------------- --
-- strconv models (Go strconv.ParseInt / Atoi / ParseBool, as used with
-- base 10 and bit size 64)
-- ------------------------------------------------------------------- --

/-- The value of a non-empty all-digit character list; `none` if the
list is empty or contains a non-digit. -/
def digitsVal (cs : List Char) : Option Nat :=
  if cs.isEmpty then none
  else if cs.all Char.isDigit then
    some (cs.foldl (fun a c => a * 10 + (c.toNat - 48)) 0)
  else none

/-- Sign/range completion for `goParseInt64`. -/
def signedInt64 (neg : Bool) (ds : List Char) : Option Int :=
  match digitsVal ds with
  | none => none
  | some n =>
      let v : Int := if neg then -(n : Int) else (n : Int)
      if -(2 ^ 63) ≤ v ∧ v ≤ 2 ^ 63 - 1 then some v else none

/-- Go `strconv.ParseInt(s, 10, 64)`: an optional single sign followed
by at least one ASCII digit, with the value required to fit in `int64`;
`none` models a returned error. -/
def goParseInt64 (s : String) : Option Int :=
  match s.toList with
  | '+' :: rest => signedInt64 false rest
  | '-' :: rest => signedInt64 true rest
  | cs => signedInt64 false cs

/-- Go `strconv.Atoi` (which is `ParseInt(s, 10, 0)` with the platform
int being 64-bit). -/
def goAtoi (s : String) : Option Int :=
  goParseInt64 s

/-- Go `strconv.ParseBool`: accepts exactly the listed tokens. -/
def goParseBool (s : String) : Option Bool :=
  if s = "1" ∨ s = "t" ∨ s = "T" ∨ s = "TRUE" ∨ s = "true" ∨ s = "True" then some true
  else if s = "0" ∨ s = "f" ∨ s = "F" ∨ s = "FALSE" ∨ s = "false" ∨ s = "False" then some false
  else none

/-- Character-level prefix test: does the first list lead the second? -/
def leadsWith : List Char → List Char → Bool
  | [], _ => true
  | _ :: _, [] => false
  | p :: ps, c :: cs => p == c && leadsWith ps cs

/-- Go `strings.HasPrefix(s, pre)`. -/
def goHasLeading (s pre : String) : Bool :=
  leadsWith pre.toList s.toList

/-- Go `strings.HasSuffix(s, suf)`. -/
def goHasTrailing (s suf : String) : Bool :=
  leadsWith suf.toList.reverse s.toList.reverse

/-- Go `strings.TrimPrefix(s, pre)`: remove `pre` from the front of `s`
if present, otherwise return `s` unchanged. -/
def trimLeading (s pre : String) : String :=
  if goHasLeading s pre then (s.toList.drop pre.toList.length).asString else s

-- ------------------------------------------------------------------- --
-- FeedPost parser (parser.go: tryParseFeedPost and its helpers)
-- ------------------------------------------------------------------- --

/-- The search criteria of `findTitle` (inlined in the source):
`And(IsTag(atom.A), HasAttributeWithValueRegex("class", "title.*"))`. -/
def titleCriteria : SearchCriteria :=
  Crit.And [IsTag "a", HasAttributeWithValueRegex "class" "title.*"]

/-- `findTitle(n)`: a depth-first search for the title anchor, then the
`Data` of the anchor's first child.  The outer `none` models the nil
pointer dereference panic of `titleNode.FirstChild.Data` when the found
anchor has no children. -/
def findTitle (n : HNode) : Option (Except GoErr String) :=
  match DepthFirstSearch n titleCriteria RecurseAlways with
  | none => some (Except.error GoErr.titleNotFound)
  | some titleNode =>
      match titleNode.children.head? with
      | none => none
      | some c => some (Except.ok c.data)

/-- The anchor criteria of `findThumbnailLink` (inlined in the source):
`And(IsTag(atom.A), HasAttributeWithValueRegex("class", "thumbnail.*"))`. -/
def thumbnailCriteria : SearchCriteria :=
  Crit.And [IsTag "a", HasAttributeWithValueRegex "class" "thumbnail.*"]

/-- The image criteria of `findThumbnailLink` (inlined in the source):
`And(IsTag(atom.Img), HasAttribute("src"))`. -/
def imgCriteria : SearchCriteria :=
  Crit.And [IsTag "img", HasAttribute "src"]

/-- `findThumbnailLink(n)`: find the thumbnail anchor breadth-first,
then an `img` with a `src` inside it, then return
`"https://" + strings.TrimPrefix(src, "//")`. -/
def findThumbnailLink (n : HNode) : Except GoErr String :=
  match BreadthFirstSearch n thumbnailCriteria RecurseAlways with
  | none => Except.error GoErr.thumbnailNotFound
  | some thumbnailNode =>
      match BreadthFirstSearch thumbnailNode imgCriteria RecurseAlways with
      | none => Except.error GoErr.thumbnailNotFound
      | some imgNode =>
          Except.ok ("https://" ++ trimLeading (GetAttribute imgNode "src").1 "//")

/-- The list-item criteria of `findCommentsLink` (inlined in the
source): `And(IsTag(atom.Li), HasAttributeWithValue("class", "first"))`. -/
def firstItemCriteria : SearchCriteria :=
  Crit.And [IsTag "li", HasAttributeWithValue "class" "first"]

/-- The anchor criteria of `findCommentsLink` (inlined in the source):
`And(IsTag(atom.A), HasAttributeWithValueRegex("class", ".*comments.*"))`. -/
def commentsAnchorCriteria : SearchCriteria :=
  Crit.And [IsTag "a", HasAttributeWithValueRegex "class" ".*comments.*"]

/-- `findCommentsLink(n)`: `<ul>` buttons bar, then
`<li class="first">`, then the comments anchor, then its `href`. -/
def findCommentsLink (n : HNode) : Except GoErr String :=
  match BreadthFirstSearch n (IsTag "ul") RecurseAlways with
  | none => Except.error GoErr.commentsNotFound
  | some buttonsBar =>
      match BreadthFirstSearch buttonsBar firstItemCriteria RecurseAlways with
      | none => Except.error GoErr.commentsNotFound
      | some commentsNode =>
          match BreadthFirstSearch commentsNode commentsAnchorCriteria RecurseAlways with
          | none => Except.error GoErr.commentsNotFound
          | some commentsLink =>
              let r := GetAttribute commentsLink "href"
              if r.2 then Except.ok r.1 else Except.error GoErr.commentsNotFound

/-- `classifyFeedPost(post)`: ordered first-match-wins rules over the
post's `PostLink`. -/
def classifyFeedPost (post : FeedPost) : FeedPostType :=
  if goHasLeading post.postLink "/r/" then FeedPostType.text
  else if goHasTrailing post.postLink ".jpg" ||
          goHasTrailing post.postLink ".png" then FeedPostType.image
  else if goHasLeading post.postLink "https://www.reddit.com/gallery/" then FeedPostType.gallery
  else if goHasLeading post.postLink "https://v.reddit.com/" ||
          goHasLeading post.postLink "https://v.redd.it/" then FeedPostType.video
  else FeedPostType.link

/-- The local variables of `tryParseFeedPost` gathered from the parent
node's attributes (declared with their Go zero values). -/
structure ParseState where
  id : String
  op : String
  subreddit : String
  timestamp : GoTime
  score : Int
  commentCount : Int
  postLink : String
  isSpoiler : Bool
  isNSFW : Bool
deriving DecidableEq, Repr

/-- The Go zero values of `tryParseFeedPost`'s local variables. -/
def initParseState : ParseState :=
  { id := "", op := "", subreddit := "", timestamp := GoTime.zeroTime, score := 0,
    commentCount := 0, postLink := "", isSpoiler := false, isNSFW := false }

/-- The `for _, attr := range n.Attr` switch of `tryParseFeedPost`:
padding markers abort with `ErrNotAPost`, the ad marker aborts with
`ErrPostIsAd`, the data attributes update the state (a parse failure
`continue`s, leaving the field untouched), anything else is ignored. -/
def attrLoop : List Attribute → ParseState → Except GoErr ParseState
  | [], st => Except.ok st
  | attr :: rest, st =>
      if attr.key = "class" then
        if attr.val = "clearleft" ∨ attr.val = "nav-buttons" then Except.error GoErr.notAPost
        else attrLoop rest st
      else if attr.key = "data-fullname" then attrLoop rest { st with id := attr.val }
      else if attr.key = "data-author" then attrLoop rest { st with op := attr.val }
      else if attr.key = "data-subreddit" then attrLoop rest { st with subreddit := attr.val }
      else if attr.key = "data-timestamp" then
        match goParseInt64 attr.val with
        | none => attrLoop rest st
        | some tsMillis => attrLoop rest { st with timestamp := GoTime.fromUnixMilliUTC tsMillis }
      else if attr.key = "data-score" then
        match goAtoi attr.val with
        | none => attrLoop rest st
        | some s => attrLoop rest { st with score := s }
      else if attr.key = "data-comments-count" then
        match goAtoi attr.val with
        | none => attrLoop rest st
        | some cc => attrLoop rest { st with commentCount := cc }
      else if attr.key = "data-url" then attrLoop rest { st with postLink := attr.val }
      else if attr.key = "data-spoiler" then
        match goParseBool attr.val with
        | none => attrLoop rest st
        | some sp => attrLoop rest { st with isSpoiler := sp }
      else if attr.key = "data-nsfw" then
        match goParseBool attr.val with
        | none => attrLoop rest st
        | some nsfw => attrLoop rest { st with isNSFW := nsfw }
      else if attr.key = "data-adserver-impression-id" then Except.error GoErr.postIsAd
      else attrLoop rest st

/-- `tryParseFeedPost(n)`: run the attribute switch, then the three
tolerant descendant lookups (each failure becomes the empty string),
build the record with `Type: FeedPostTypeLink`, and classify it.  The
outer `none` models a panic inside `findTitle`. -/
def tryParseFeedPost (n : HNode) : Option (Except GoErr FeedPost) :=
  match attrLoop n.attrs initParseState with
  | Except.error e => some (Except.error e)
  | Except.ok st =>
      match findTitle n with
      | none => none
      | some titleRes =>
          let title := match titleRes with
            | Except.ok t => t
            | Except.error _ => ""
          let thumbnailLink := match findThumbnailLink n with
            | Except.ok t => t
            | Except.error _ => ""
          let commentsLink := match findCommentsLink n with
            | Except.ok c => c
            | Except.error _ => ""
          let post : FeedPost :=
            { id := st.id, type := FeedPostType.link, title := title, op := st.op,
              subreddit := st.subreddit, timestamp := st.timestamp, score := st.score,
              commentCount := st.commentCount, thumbnailLink := thumbnailLink,
              postLink := st.postLink, commentsLink := commentsLink,
              isSpoiler := st.isSpoiler, isNSFW := st.isNSFW }
          some (Except.ok { post with type := classifyFeedPost post })

-- ------------------------------------------------------------------- --
-- Page-level extraction (parser.go: getSiteTable, getFeedPosts)
-- ------------------------------------------------------------------- --

/-- The container criteria of `getSiteTable` (inlined in the source):
`And(IsTag(atom.Div), HasAttributeWithValue("id", "siteTable"))`. -/
def siteTableCriteria : SearchCriteria :=
  Crit.And [IsTag "div", HasAttributeWithValue "id" "siteTable"]

/-- The recursion policy of `getSiteTable`: `Not(IsTag(atom.Head))`. -/
def siteTableRecurse : SearchCriteria :=
  Crit.Not (IsTag "head")

/-- `getSiteTable(n)`: a breadth-first search for the `siteTable` div
that refuses to descend into `<head>`; a failed search is wrapped as
`fmt.Errorf("site table not found: %w", ErrSearchFailed)`. -/
def getSiteTable (n : HNode) : Except GoErr HNode :=
  match BreadthFirstSearch n siteTableCriteria siteTableRecurse with
  | none => Except.error (GoErr.wrapped "site table not found" GoErr.searchFailed)
  | some siteTable => Except.ok siteTable

/-- The `for c := siteTable.FirstChild; ...` loop of `getFeedPosts`:
non-element children are skipped, children whose parse errors are
skipped, successful parses are appended in order.  `none` models a
panic inside `tryParseFeedPost`. -/
def collectPosts : List HNode → Option (List FeedPost)
  | [] => some []
  | c :: cs =>
      if c.type ≠ NodeType.elementNode then collectPosts cs
      else
        match tryParseFeedPost c with
        | none => none
        | some (Except.error _) => collectPosts cs
        | some (Except.ok p) => (collectPosts cs).map fun ps => p :: ps

/-- `getFeedPosts(doc)`: locate the site table, then collect the posts
from its immediate children.  `none` models a panic. -/
def getFeedPosts (doc : HNode) : Option (Except GoErr (List FeedPost)) :=
  match getSiteTable doc with
  | Except.error e => some (Except.error e)
  | Except.ok siteTable => (collectPosts siteTable.children).map Except.ok

-- ------------------------------------------------------------------- --
-- Feed assembly (parser.go: RedditParser.Feed, constructURL; model.go:
-- feedOpts, SortMethod)
-- ------------------------------------------------------------------- --

/-- `SortMethod` (model.go). -/
inductive SortMethod where
  | default
  | hot
  | new
  | rising
  | controversial
  | top
  | gilded
deriving DecidableEq, Repr

/-- `SortMethod.URLString()`. -/
def SortMethod.urlString : SortMethod → String
  | .hot => "hot"
  | .new => "new"
  | .rising => "rising"
  | .controversial => "controversial"
  | .top => "top"
  | .gilded => "gilded"
  | .default => ""

/-- `feedOpts` (model.go); the forwarded `Headers` field never reaches
`constructURL` or the feed assembly and is omitted. -/
structure FeedOpts where
  baseURL : String
  subreddit : Option String
  sortMethod : SortMethod
  count : Int
  lastPostID : Option String
deriving DecidableEq, Repr

/-- The defaults set at the top of `RedditParser.Feed`. -/
def defaultFeedOpts : FeedOpts :=
  { baseURL := "http://old.reddit.com", subreddit := none,
    sortMethod := SortMethod.default, count := 0, lastPostID := none }

/-- Go `url.QueryEscape` on one byte: unreserved bytes are kept, space
becomes `+`, everything else is percent-encoded in upper-case hex. -/
def escapeByte (b : UInt8) : String :=
  let n := b.toNat
  if (65 ≤ n ∧ n ≤ 90) ∨ (97 ≤ n ∧ n ≤ 122) ∨ (48 ≤ n ∧ n ≤ 57) ∨
      n = 45 ∨ n = 95 ∨ n = 46 ∨ n = 126 then
    String.singleton (Char.ofNat n)
  else if n = 32 then "+"
  else
    let hex := fun (d : Nat) => String.singleton (Char.ofNat (if d < 10 then 48 + d else 55 + d))
    "%" ++ hex (n / 16) ++ hex (n % 16)

/-- Go `url.QueryEscape`. -/
def queryEscape (s : String) : String :=
  s.toUTF8.toList.foldl (fun acc b => acc ++ escapeByte b) ""

/-- Ordered insertion by key (helper for the sorted iteration of
`url.Values.Encode()`). -/
def insertKV (kv : String × String) : List (String × String) → List (String × String)
  | [] => [kv]
  | p :: ps => if kv.1 ≤ p.1 then kv :: p :: ps else p :: insertKV kv ps

/-- Insertion sort by key (`url.Values.Encode()` iterates keys in
sorted order). -/
def sortByKey (values : List (String × String)) : List (String × String) :=
  values.foldr insertKV []

/-- `url.Values.Encode()`: entries sorted by key, each rendered as
`key=escapedValue` and joined with `&`.  The repo sets at most one value
per key. -/
def encodeValues (values : List (String × String)) : String :=
  String.intercalate "&" ((sortByKey values).map fun kv => kv.1 ++ "=" ++ queryEscape kv.2)

/-- `constructURL(opts)` (parser.go): base URL, optional `/r/<sub>`
segment, then the encoded query parameters (`sort`, `count`, `after`)
appended as `/?<query>` when non-empty. -/
def constructURL (opts : FeedOpts) : String :=
  let getURL := opts.baseURL
  let getURL := match opts.subreddit with
    | some sub => getURL ++ "/r/" ++ sub
    | none => getURL
  let values : List (String × String) := []
  let values := if opts.sortMethod ≠ SortMethod.default then
      values ++ [("sort", opts.sortMethod.urlString)] else values
  let values := if opts.count ≠ 0 then
      values ++ [("count", toString opts.count)] else values
  let values := match opts.lastPostID with
    | some lastID => values ++ [("after", lastID)]
    | none => values
  let v := encodeValues values
  if v ≠ "" then getURL ++ "/?" ++ v else getURL

/-- The tail of `RedditParser.Feed` (parser.go lines 59-68): clear the
base URL, set `LastPostID` to `posts[len(posts)-1].ID`, and build the
next-page link.  On an empty post list the index `len(posts)-1` is out
of range: that panic is modelled by `none`. -/
def feedNextPage (opts : FeedOpts) (posts : List FeedPost) : Option Feed :=
  match posts.getLast? with
  | none => none
  | some lastPost =>
      let opts := { opts with baseURL := "", lastPostID := some lastPost.id }
      some { posts := posts, nextPageLink := constructURL opts }

/-- `RedditParser.Feed` after the document has been fetched and parsed:
extract the posts, then assemble the feed with its continuation link.
`none` models a panic; `Except.error` a returned error. -/
def feedFromDocument (opts : FeedOpts) (doc : HNode) : Option (Except GoErr Feed) :=
  match getFeedPosts doc with
  | none => none
  | some (Except.error e) => some (Except.error e)
  | some (Except.ok posts) => (feedNextPage opts posts).map Except.ok

-- ------------------------------------------------------------------- --
-- Reachability chains: the specification-level description of which
-- nodes a traversal can reach from the root.
-- ------------------------------------------------------------------- --

/-- A parent-to-descendant chain in which every interior node satisfies
the step predicate `ok`.  `ReachChain ok x y` says `y` lies in the
subtree of `x` and every strict ancestor of `y` on the way down from
`x` (including `x` itself when the chain is non-trivial) satisfies
`ok`. -/
inductive ReachChain (ok : SearchCriteria) : HNode → HNode → Prop where
  | refl (n : HNode) : ReachChain ok n n
  | step {x c d : HNode} : ok x = true → c ∈ x.children →
      ReachChain ok c d → ReachChain ok x d

/-- Reachability under the descend policy alone: interior nodes are the
document sentinel or satisfy the descend predicate (matching the
unconditional document expansion in both search loops). -/
def DescendReach (recurseIf : SearchCriteria) : HNode → HNode → Prop :=
  ReachChain (expandOK recurseIf)

/-- The chains a running search actually follows: interior nodes are
expandable (document sentinel or descend predicate) AND non-matching —
a matching interior node would have ended the search instead of being
expanded. -/
def SearchReach (criteria recurseIf : SearchCriteria) : HNode → HNode → Prop :=
  ReachChain (fun n => expandOK recurseIf n && !criteria n)

theorem ReachChain.mono {p q : SearchCriteria}
    (hpq : ∀ n, p n = true → q n = true) {x y : HNode}
    (h : ReachChain p x y) : ReachChain q x y := by
  induction h with
  | refl n => exact ReachChain.refl n
  | step hok hmem _ ih => exact ReachChain.step (hpq _ hok) hmem ih

theorem SearchReach.toDescend {criteria recurseIf : SearchCriteria} {x y : HNode}
    (h : SearchReach criteria recurseIf x y) : DescendReach recurseIf x y :=
  ReachChain.mono (fun n hn => by
    have := (Bool.and_eq_true _ _).mp hn
    exact this.1) h

/-- Transfer of chains across one expansion step of the worklist: a
chain from a member of `expand recurseIf n` lifts to a chain from `n`,
provided `n` does not match. -/
theorem chain_of_expand {criteria recurseIf : SearchCriteria} {n c m : HNode}
    (hc : c ∈ expand recurseIf n) (hn : criteria n = false)
    (h : SearchReach criteria recurseIf c m) :
    SearchReach criteria recurseIf n m := by
  unfold expand at hc
  by_cases hok : expandOK recurseIf n = true
  · rw [if_pos hok] at hc
    refine ReachChain.step ?_ hc h
    simp [hok, hn]
  · rw [if_neg hok] at hc
    cases hc

/-- Inversion: a chain out of a non-matching node is trivial or goes
through one of the node's expansion children. -/
theorem chain_cases {criteria recurseIf : SearchCriteria} {n m : HNode}
    (h : SearchReach criteria recurseIf n m) :
    m = n ∨ ∃ c ∈ expand recurseIf n, SearchReach criteria recurseIf c m := by
  cases h with
  | refl => exact Or.inl rfl
  | step hok hmem hch =>
    right
    have hand := (Bool.and_eq_true _ _).mp hok
    refine ⟨_, ?_, hch⟩
    unfold expand
    rw [if_pos hand.1]
    exact hmem

/-- `SearchReach` from some member of a worklist, stated for the loop
invariants below. -/
def ReachFrom (criteria recurseIf : SearchCriteria) (nodes : List HNode) (m : HNode) : Prop :=
  ∃ x ∈ nodes, SearchReach criteria recurseIf x m

/-- Worklist shift, forward direction: when the popped node does not
match, a chain to a MATCHING node from the old worklist survives into
the new worklist (the popped node itself cannot be the match). -/
theorem reachFrom_shift_fwd {criteria recurseIf : SearchCriteria} {n : HNode}
    {rest : List HNode} {m : HNode} (hn : criteria n = false) (hm : criteria m = true)
    (h : ReachFrom criteria recurseIf (n :: rest) m) :
    ReachFrom criteria recurseIf (rest ++ expand recurseIf n) m := by
  obtain ⟨x, hx, hch⟩ := h
  rcases List.mem_cons.mp hx with rfl | hx
  · rcases chain_cases hch with rfl | ⟨c, hc, hch'⟩
    · rw [hm] at hn; cases hn
    · exact ⟨c, List.mem_append_right _ hc, hch'⟩
  · exact ⟨x, List.mem_append_left _ hx, hch⟩

/-- Worklist shift, backward direction: a chain from the new worklist
lifts back (a chain from an expansion child of `n` extends to a chain
from `n`, since `n` did not match). -/
theorem reachFrom_shift_bwd {criteria recurseIf : SearchCriteria} {n : HNode}
    {rest : List HNode} {m : HNode} (hn : criteria n = false)
    (h : ReachFrom criteria recurseIf (rest ++ expand recurseIf n) m) :
    ReachFrom criteria recurseIf (n :: rest) m := by
  obtain ⟨x, hx, hch⟩ := h
  rcases List.mem_append.mp hx with hx | hx
  · exact ⟨x, List.mem_cons_of_mem _ hx, hch⟩
  · exact ⟨n, List.mem_cons_self _ _, chain_of_expand hx hn hch⟩

/-- Worklist pop (depth-first variant), forward direction. -/
theorem reachFrom_pop_fwd {criteria recurseIf : SearchCriteria} {n : HNode}
    {nodes : List HNode} {m : HNode} (hlast : nodes.getLast? = some n)
    (hn : criteria n = false) (hm : criteria m = true)
    (h : ReachFrom criteria recurseIf nodes m) :
    ReachFrom criteria recurseIf (nodes.dropLast ++ expand recurseIf n) m := by
  obtain ⟨x, hx, hch⟩ := h
  rw [getLast?_decomp hlast] at hx
  rcases List.mem_append.mp hx with hx | hx
  · exact ⟨x, List.mem_append_left _ hx, hch⟩
  · have hxn : x = n := by simpa using hx
    subst hxn
    rcases chain_cases hch with rfl | ⟨c, hc, hch'⟩
    · rw [hm] at hn; cases hn
    · exact ⟨c, List.mem_append_right _ hc, hch'⟩

/-- Worklist pop (depth-first variant), backward direction. -/
theorem reachFrom_pop_bwd {criteria recurseIf : SearchCriteria} {n : HNode}
    {nodes : List HNode} {m : HNode} (hlast : nodes.getLast? = some n)
    (hn : criteria n = false)
    (h : ReachFrom criteria recurseIf (nodes.dropLast ++ expand recurseIf n) m) :
    ReachFrom criteria recurseIf nodes m := by
  obtain ⟨x, hx, hch⟩ := h
  rcases List.mem_append.mp hx with hx | hx
  · refine ⟨x, ?_, hch⟩
    rw [getLast?_decomp hlast]
    exact List.mem_append_left _ hx
  · refine ⟨n, ?_, chain_of_expand hx hn hch⟩
    rw [getLast?_decomp hlast]
    exact List.mem_append_right _ (by simp)

/-- One-step unfolding of `dfsLoop` on an empty worklist. -/
theorem dfsLoop_none_eq {criteria recurseIf : SearchCriteria} {nodes : List HNode}
    (h : nodes.getLast? = none) : dfsLoop criteria recurseIf nodes = none := by
  rw [dfsLoop.eq_def]
  split
  · rfl
  · rename_i n h0
    rw [h] at h0
    cases h0

/-- One-step unfolding of `dfsLoop` on a non-empty worklist. -/
theorem dfsLoop_some_eq {criteria recurseIf : SearchCriteria} {nodes : List HNode}
    {n : HNode} (h : nodes.getLast? = some n) :
    dfsLoop criteria recurseIf nodes =
      if criteria n then some n
      else dfsLoop criteria recurseIf (nodes.dropLast ++ expand recurseIf n) := by
  rw [dfsLoop.eq_def]
  split
  · rename_i h0
    rw [h] at h0
    cases h0
  · rename_i n' h0
    rw [h] at h0
    obtain rfl := Option.some.inj h0
    rfl

/-- Soundness of the breadth-first loop: a returned node matches and is
search-reachable from some worklist entry. -/
theorem bfsGo_some_reach (criteria recurseIf : SearchCriteria) :
    ∀ nodes : List HNode, ∀ m : HNode, bfsGo criteria recurseIf nodes = some m →
      criteria m = true ∧ ReachFrom criteria recurseIf nodes m := by
  intro nodes
  induction nodes using bfsGo.induct criteria recurseIf with
  | case1 =>
    intro m h
    simp [bfsGo] at h
  | case2 c cs hc =>
    intro m h
    simp only [bfsGo, if_pos hc] at h
    obtain rfl := Option.some.inj h
    exact ⟨hc, ⟨c, List.mem_cons_self _ _, ReachChain.refl c⟩⟩
  | case3 c cs hc ih =>
    intro m h
    have hcf : criteria c = false := by
      cases hcv : criteria c
      · rfl
      · exact absurd hcv hc
    simp only [bfsGo, if_neg hc] at h
    obtain ⟨hm, hr⟩ := ih m h
    exact ⟨hm, reachFrom_shift_bwd hcf hr⟩

/-- Completeness/failure characterisation of the breadth-first loop:
the loop fails exactly when no matching node is search-reachable from
any worklist entry. -/
theorem bfsGo_none_iff (criteria recurseIf : SearchCriteria) :
    ∀ nodes : List HNode, (bfsGo criteria recurseIf nodes = none ↔
      ∀ m : HNode, criteria m = true → ¬ ReachFrom criteria recurseIf nodes m) := by
  intro nodes
  induction nodes using bfsGo.induct criteria recurseIf with
  | case1 =>
    constructor
    · rintro _ m _ ⟨x, hx, _⟩
      cases hx
    · intro _
      simp [bfsGo]
  | case2 c cs hc =>
    simp only [bfsGo, if_pos hc]
    constructor
    · intro h
      cases h
    · intro hall
      exact absurd ⟨c, List.mem_cons_self _ _, ReachChain.refl c⟩ (hall c hc)
  | case3 c cs hc ih =>
    have hcf : criteria c = false := by
      cases hcv : criteria c
      · rfl
      · exact absurd hcv hc
    simp only [bfsGo, if_neg hc]
    rw [ih]
    constructor
    · intro h m hm hr
      exact h m hm (reachFrom_shift_fwd hcf hm hr)
    · intro h m hm hr
      exact h m hm (reachFrom_shift_bwd hcf hr)

/-- Soundness of the depth-first loop. -/
theorem dfsLoop_some_reach (criteria recurseIf : SearchCriteria) :
    ∀ nodes : List HNode, ∀ m : HNode, dfsLoop criteria recurseIf nodes = some m →
      criteria m = true ∧ ReachFrom criteria recurseIf nodes m := by
  intro nodes
  induction nodes using dfsLoop.induct criteria recurseIf with
  | case1 x hlast =>
    intro m h
    rw [dfsLoop_none_eq hlast] at h
    cases h
  | case2 x n hlast hn =>
    intro m h
    rw [dfsLoop_some_eq hlast, if_pos hn] at h
    obtain rfl := Option.some.inj h
    refine ⟨hn, ⟨n, ?_, ReachChain.refl n⟩⟩
    rw [getLast?_decomp hlast]
    exact List.mem_append_right _ (by simp)
  | case3 x n hlast hn ih =>
    intro m h
    have hnf : criteria n = false := by
      cases hnv : criteria n
      · rfl
      · exact absurd hnv hn
    rw [dfsLoop_some_eq hlast, if_neg hn] at h
    obtain ⟨hm, hr⟩ := ih m h
    exact ⟨hm, reachFrom_pop_bwd hlast hnf hr⟩

/-- Completeness/failure characterisation of the depth-first loop. -/
theorem dfsLoop_none_iff (criteria recurseIf : SearchCriteria) :
    ∀ nodes : List HNode, (dfsLoop criteria recurseIf nodes = none ↔
      ∀ m : HNode, criteria m = true → ¬ ReachFrom criteria recurseIf nodes m) := by
  intro nodes
  induction nodes using dfsLoop.induct criteria recurseIf with
  | case1 x hlast =>
    rw [dfsLoop_none_eq hlast]
    have hx : x = [] := getLast?_none hlast
    subst hx
    constructor
    · rintro _ m _ ⟨y, hy, _⟩
      cases hy
    · intro _
      rfl
  | case2 x n hlast hn =>
    rw [dfsLoop_some_eq hlast, if_pos hn]
    constructor
    · intro h
      cases h
    · intro hall
      refine absurd ⟨n, ?_, ReachChain.refl n⟩ (hall n hn)
      rw [getLast?_decomp hlast]
      exact List.mem_append_right _ (by simp)
  | case3 x n hlast hn ih =>
    have hnf : criteria n = false := by
      cases hnv : criteria n
      · rfl
      · exact absurd hnv hn
    rw [dfsLoop_some_eq hlast, if_neg hn]
    rw [ih]
    constructor
    · intro h m hm hr
      exact h m hm (reachFrom_pop_fwd hlast hnf hm hr)
    · intro h m hm hr
      exact h m hm (reachFrom_pop_bwd hlast hnf hr)

/-- Reachability from a singleton worklist is reachability from the
root. -/
theorem reachFrom_singleton {criteria recurseIf : SearchCriteria} {root m : HNode} :
    ReachFrom criteria recurseIf [root] m ↔ SearchReach criteria recurseIf root m := by
  constructor
  · rintro ⟨x, hx, hch⟩
    have : x = root := by simpa using hx
    subst this
    exact hch
  · intro hch
    exact ⟨root, by simp, hch⟩

-- ------------------------------------------------------------------- --
-- The visit traces of the two loops: the exact sequence of nodes each
-- loop pops (and therefore examines) before returning.
-- ------------------------------------------------------------------- --

/-- The nodes popped by the `BreadthFirstSearch` loop, in order: a
matching pop is the last visited node; a non-matching pop is visited
and the loop continues on the shifted worklist. -/
def bfsVisitGo (criteria recurseIf : SearchCriteria) (nodes : List HNode) : List HNode :=
  match nodes with
  | [] => []
  | n :: rest =>
      if criteria n then [n]
      else n :: bfsVisitGo criteria recurseIf (rest ++ expand recurseIf n)
termination_by sizeList nodes
decreasing_by
  exact bfs_step_lt recurseIf _ _

/-- The nodes popped by the `DepthFirstSearch` loop, in order. -/
def dfsVisitLoop (criteria recurseIf : SearchCriteria) (nodes : List HNode) : List HNode :=
  match _h : nodes.getLast? with
  | none => []
  | some n =>
      if criteria n then [n]
      else n :: dfsVisitLoop criteria recurseIf (nodes.dropLast ++ expand recurseIf n)
termination_by sizeList nodes
decreasing_by
  exact dfs_step_lt recurseIf _h

/-- Nodes visited by `BreadthFirstSearch root criteria recurseIf`. -/
def bfsVisited (root : HNode) (criteria recurseIf : SearchCriteria) : List HNode :=
  bfsVisitGo criteria recurseIf [root]

/-- Nodes visited by `DepthFirstSearch root criteria recurseIf`. -/
def dfsVisited (root : HNode) (criteria recurseIf : SearchCriteria) : List HNode :=
  dfsVisitLoop criteria recurseIf [root]

/-- Every node the breadth-first loop visits is search-reachable from
some worklist entry. -/
theorem bfsVisitGo_reach (criteria recurseIf : SearchCriteria) :
    ∀ nodes : List HNode, ∀ v ∈ bfsVisitGo criteria recurseIf nodes,
      ReachFrom criteria recurseIf nodes v := by
  intro nodes
  induction nodes using bfsVisitGo.induct criteria recurseIf with
  | case1 =>
    intro v hv
    simp [bfsVisitGo] at hv
  | case2 c cs hc =>
    intro v hv
    simp only [bfsVisitGo, if_pos hc] at hv
    have : v = c := by simpa using hv
    subst this
    exact ⟨v, List.mem_cons_self _ _, ReachChain.refl v⟩
  | case3 c cs hc ih =>
    intro v hv
    have hcf : criteria c = false := by
      cases hcv : criteria c
      · rfl
      · exact absurd hcv hc
    simp only [bfsVisitGo, if_neg hc] at hv
    rcases List.mem_cons.mp hv with rfl | hv
    · exact ⟨v, List.mem_cons_self _ _, ReachChain.refl v⟩
    · exact reachFrom_shift_bwd hcf (ih v hv)

/-- One-step unfolding of `dfsVisitLoop` on an empty worklist. -/
theorem dfsVisitLoop_none_eq {criteria recurseIf : SearchCriteria} {nodes : List HNode}
    (h : nodes.getLast? = none) : dfsVisitLoop criteria recurseIf nodes = [] := by
  rw [dfsVisitLoop.eq_def]
  split
  · rfl
  · rename_i n h0
    rw [h] at h0
    cases h0

/-- One-step unfolding of `dfsVisitLoop` on a non-empty worklist. -/
theorem dfsVisitLoop_some_eq {criteria recurseIf : SearchCriteria} {nodes : List HNode}
    {n : HNode} (h : nodes.getLast? = some n) :
    dfsVisitLoop criteria recurseIf nodes =
      if criteria n then [n]
      else n :: dfsVisitLoop criteria recurseIf (nodes.dropLast ++ expand recurseIf n) := by
  rw [dfsVisitLoop.eq_def]
  split
  · rename_i h0
    rw [h] at h0
    cases h0
  · rename_i n' h0
    rw [h] at h0
    obtain rfl := Option.some.inj h0
    rfl

/-- Every node the depth-first loop visits is search-reachable from
some worklist entry. -/
theorem dfsVisitLoop_reach (criteria recurseIf : SearchCriteria) :
    ∀ nodes : List HNode, ∀ v ∈ dfsVisitLoop criteria recurseIf nodes,
      ReachFrom criteria recurseIf nodes v := by
  intro nodes
  induction nodes using dfsVisitLoop.induct criteria recurseIf with
  | case1 x hlast =>
    intro v hv
    rw [dfsVisitLoop_none_eq hlast] at hv
    cases hv
  | case2 x n hlast hn =>
    intro v hv
    rw [dfsVisitLoop_some_eq hlast, if_pos hn] at hv
    have : v = n := by simpa using hv
    subst this
    refine ⟨v, ?_, ReachChain.refl v⟩
    rw [getLast?_decomp hlast]
    exact List.mem_append_right _ (by simp)
  | case3 x n hlast hn ih =>
    intro v hv
    have hnf : criteria n = false := by
      cases hnv : criteria n
      · rfl
      · exact absurd hnv hn
    rw [dfsVisitLoop_some_eq hlast, if_neg hn] at hv
    rcases List.mem_cons.mp hv with rfl | hv
    · refine ⟨v, ?_, ReachChain.refl v⟩
      rw [getLast?_decomp hlast]
      exact List.mem_append_right _ (by simp)
    · exact reachFrom_pop_bwd hlast hnf (ih v hv)

-- ------------------------------------------------------------------- --
-- Recursive descriptions of the depth-first visit order.
-- ------------------------------------------------------------------- --

/-- First-success choice (`x` preferred over `y`). -/
def orElseO (x y : Option HNode) : Option HNode :=
  match x with
  | some m => some m
  | none => y

mutual

/-- Pre-order depth-first search with children explored RIGHT-to-left:
check the node itself, then (when the node is expandable) its children
starting from the LAST one.  This is the order the stack-based
`DepthFirstSearch` loop actually realises, since it pushes children
first-to-last and pops from the top. -/
def dfsSpecRTL (criteria recurseIf : SearchCriteria) (n : HNode) : Option HNode :=
  if criteria n then some n
  else dfsSeekRTL criteria recurseIf (expand recurseIf n)
termination_by 2 * HNode.size n
decreasing_by
  have := sizeList_expand_lt recurseIf n
  omega

/-- Scan a forest right-to-left, searching each tree with
`dfsSpecRTL`. -/
def dfsSeekRTL (criteria recurseIf : SearchCriteria) : List HNode → Option HNode
  | [] => none
  | c :: cs => orElseO (dfsSeekRTL criteria recurseIf cs) (dfsSpecRTL criteria recurseIf c)
termination_by l => 2 * sizeList l + 1
decreasing_by
  · simp only [sizeList]
    have := HNode.size_pos c
    omega
  · simp only [sizeList]
    have := HNode.size_pos c
    omega

end

mutual

/-- Modelled from the claim's words: standard pre-order depth-first
search with children explored LEFT-to-right — check the node itself,
then (when the node is expandable) its children starting from the
FIRST.  Used to refute the claim that `DepthFirstSearch` returns the
pre-order-first match. -/
def dfsSpecLTR (criteria recurseIf : SearchCriteria) (n : HNode) : Option HNode :=
  if criteria n then some n
  else dfsSeekLTR criteria recurseIf (expand recurseIf n)
termination_by 2 * HNode.size n
decreasing_by
  have := sizeList_expand_lt recurseIf n
  omega

/-- Scan a forest left-to-right, searching each tree with
`dfsSpecLTR`. -/
def dfsSeekLTR (criteria recurseIf : SearchCriteria) : List HNode → Option HNode
  | [] => none
  | c :: cs => orElseO (dfsSpecLTR criteria recurseIf c) (dfsSeekLTR criteria recurseIf cs)
termination_by l => 2 * sizeList l + 1
decreasing_by
  · simp only [sizeList]
    have := HNode.size_pos c
    omega
  · simp only [sizeList]
    have := HNode.size_pos c
    omega

end

theorem orElseO_none_right (x : Option HNode) : orElseO x none = x := by
  cases x <;> rfl

theorem orElseO_assoc (x y z : Option HNode) :
    orElseO (orElseO x y) z = orElseO x (orElseO y z) := by
  cases x <;> cases y <;> rfl

/-- Scanning an appended forest right-to-left: the right part is
preferred. -/
theorem dfsSeekRTL_append (criteria recurseIf : SearchCriteria) (a b : List HNode) :
    dfsSeekRTL criteria recurseIf (a ++ b) =
      orElseO (dfsSeekRTL criteria recurseIf b) (dfsSeekRTL criteria recurseIf a) := by
  induction a with
  | nil =>
    simp only [List.nil_append, dfsSeekRTL]
    exact (orElseO_none_right _).symm
  | cons x xs ih =>
    show dfsSeekRTL criteria recurseIf (x :: (xs ++ b)) = _
    simp only [dfsSeekRTL, ih, orElseO_assoc]

/-- The key order lemma: the stack-based depth-first loop computes the
right-to-left pre-order search over its worklist (scanned from the
back). -/
theorem dfsLoop_eq_seekRTL (criteria recurseIf : SearchCriteria) :
    ∀ nodes : List HNode,
      dfsLoop criteria recurseIf nodes = dfsSeekRTL criteria recurseIf nodes := by
  intro nodes
  induction nodes using dfsLoop.induct criteria recurseIf with
  | case1 x hlast =>
    rw [dfsLoop_none_eq hlast, getLast?_none hlast]
    simp only [dfsSeekRTL]
  | case2 x n hlast hn =>
    rw [dfsLoop_some_eq hlast, if_pos hn]
    conv_rhs => rw [getLast?_decomp hlast]
    rw [dfsSeekRTL_append]
    have h1 : dfsSeekRTL criteria recurseIf [n] = some n := by
      simp [dfsSeekRTL, dfsSpecRTL, hn, orElseO]
    rw [h1]
    rfl
  | case3 x n hlast hn ih =>
    have hnf : criteria n = false := by
      cases hnv : criteria n
      · rfl
      · exact absurd hnv hn
    rw [dfsLoop_some_eq hlast, if_neg hn, ih, dfsSeekRTL_append]
    conv_rhs => rw [getLast?_decomp hlast]
    rw [dfsSeekRTL_append]
    have h1 : dfsSeekRTL criteria recurseIf [n] =
        dfsSeekRTL criteria recurseIf (expand recurseIf n) := by
      simp [dfsSeekRTL, dfsSpecRTL, hnf, orElseO]
    rw [h1]

-- ------------------------------------------------------------------- --
-- Attribute-loop lemmas: skip markers and per-field parse tolerance.
-- ------------------------------------------------------------------- --

/-- The two skip conditions of `tryParseFeedPost`'s attribute switch: a
padding marker (`class="clearleft"` / `class="nav-buttons"`) or the
advertisement marker attribute key. -/
def SkipAttr (a : Attribute) : Prop :=
  (a.key = "class" ∧ (a.val = "clearleft" ∨ a.val = "nav-buttons")) ∨
    a.key = "data-adserver-impression-id"

/-- A candidate child carrying no skip marker. -/
def NoSkipAttrs (n : HNode) : Prop :=
  ∀ a ∈ n.attrs, ¬ SkipAttr a

theorem forall_attr_tail {P : Attribute → Prop} {a : Attribute} {rest : List Attribute}
    (h : ∀ x ∈ a :: rest, P x) : ∀ x ∈ rest, P x :=
  fun x hx => h x (List.mem_cons_of_mem _ hx)

/-- The attribute loop on a skip-free attribute list succeeds, and any
data field whose every occurrence fails to parse is left at its
incoming value. -/
theorem attrLoop_fields : ∀ (attrs : List Attribute) (st : ParseState),
    (∀ a ∈ attrs, ¬ SkipAttr a) →
    ∃ st2, attrLoop attrs st = Except.ok st2 ∧
      ((∀ a ∈ attrs, a.key = "data-score" → goAtoi a.val = none) →
        st2.score = st.score) ∧
      ((∀ a ∈ attrs, a.key = "data-timestamp" → goParseInt64 a.val = none) →
        st2.timestamp = st.timestamp) ∧
      ((∀ a ∈ attrs, a.key = "data-comments-count" → goAtoi a.val = none) →
        st2.commentCount = st.commentCount) ∧
      ((∀ a ∈ attrs, a.key = "data-spoiler" → goParseBool a.val = none) →
        st2.isSpoiler = st.isSpoiler) ∧
      ((∀ a ∈ attrs, a.key = "data-nsfw" → goParseBool a.val = none) →
        st2.isNSFW = st.isNSFW) := by
  intro attrs
  induction attrs with
  | nil =>
    intro st _
    exact ⟨st, rfl, fun _ => rfl, fun _ => rfl, fun _ => rfl, fun _ => rfl, fun _ => rfl⟩
  | cons a rest ih =>
    intro st hns
    have hna : ¬ SkipAttr a := hns a (List.mem_cons_self _ _)
    have hrest : ∀ x ∈ rest, ¬ SkipAttr x := forall_attr_tail hns
    simp only [attrLoop]
    by_cases hk1 : a.key = "class"
    · have hv : ¬(a.val = "clearleft" ∨ a.val = "nav-buttons") := by
        intro hv
        exact hna (Or.inl ⟨hk1, hv⟩)
      rw [if_pos hk1, if_neg hv]
      obtain ⟨st2, hok, h1, h2, h3, h4, h5⟩ := ih st hrest
      exact ⟨st2, hok,
        fun hall => h1 (forall_attr_tail hall),
        fun hall => h2 (forall_attr_tail hall),
        fun hall => h3 (forall_attr_tail hall),
        fun hall => h4 (forall_attr_tail hall),
        fun hall => h5 (forall_attr_tail hall)⟩
    rw [if_neg hk1]
    by_cases hk2 : a.key = "data-fullname"
    · rw [if_pos hk2]
      obtain ⟨st2, hok, h1, h2, h3, h4, h5⟩ := ih { st with id := a.val } hrest
      exact ⟨st2, hok,
        fun hall => h1 (forall_attr_tail hall),
        fun hall => h2 (forall_attr_tail hall),
        fun hall => h3 (forall_attr_tail hall),
        fun hall => h4 (forall_attr_tail hall),
        fun hall => h5 (forall_attr_tail hall)⟩
    rw [if_neg hk2]
    by_cases hk3 : a.key = "data-author"
    · rw [if_pos hk3]
      obtain ⟨st2, hok, h1, h2, h3, h4, h5⟩ := ih { st with op := a.val } hrest
      exact ⟨st2, hok,
        fun hall => h1 (forall_attr_tail hall),
        fun hall => h2 (forall_attr_tail hall),
        fun hall => h3 (forall_attr_tail hall),
        fun hall => h4 (forall_attr_tail hall),
        fun hall => h5 (forall_attr_tail hall)⟩
    rw [if_neg hk3]
    by_cases hk4 : a.key = "data-subreddit"
    · rw [if_pos hk4]
      obtain ⟨st2, hok, h1, h2, h3, h4, h5⟩ := ih { st with subreddit := a.val } hrest
      exact ⟨st2, hok,
        fun hall => h1 (forall_attr_tail hall),
        fun hall => h2 (forall_attr_tail hall),
        fun hall => h3 (forall_attr_tail hall),
        fun hall => h4 (forall_attr_tail hall),
        fun hall => h5 (forall_attr_tail hall)⟩
    rw [if_neg hk4]
    by_cases hk5 : a.key = "data-timestamp"
    · rw [if_pos hk5]
      cases hp : goParseInt64 a.val with
      | none =>
        obtain ⟨st2, hok, h1, h2, h3, h4, h5⟩ := ih st hrest
        exact ⟨st2, hok,
          fun hall => h1 (forall_attr_tail hall),
          fun hall => h2 (forall_attr_tail hall),
          fun hall => h3 (forall_attr_tail hall),
          fun hall => h4 (forall_attr_tail hall),
          fun hall => h5 (forall_attr_tail hall)⟩
      | some ts =>
        obtain ⟨st2, hok, h1, h2, h3, h4, h5⟩ :=
          ih { st with timestamp := GoTime.fromUnixMilliUTC ts } hrest
        refine ⟨st2, hok,
          fun hall => h1 (forall_attr_tail hall), ?_,
          fun hall => h3 (forall_attr_tail hall),
          fun hall => h4 (forall_attr_tail hall),
          fun hall => h5 (forall_attr_tail hall)⟩
        intro hall
        have := hall a (List.mem_cons_self _ _) hk5
        rw [hp] at this
        cases this
    rw [if_neg hk5]
    by_cases hk6 : a.key = "data-score"
    · rw [if_pos hk6]
      cases hp : goAtoi a.val with
      | none =>
        obtain ⟨st2, hok, h1, h2, h3, h4, h5⟩ := ih st hrest
        exact ⟨st2, hok,
          fun hall => h1 (forall_attr_tail hall),
          fun hall => h2 (forall_attr_tail hall),
          fun hall => h3 (forall_attr_tail hall),
          fun hall => h4 (forall_attr_tail hall),
          fun hall => h5 (forall_attr_tail hall)⟩
      | some s =>
        obtain ⟨st2, hok, h1, h2, h3, h4, h5⟩ := ih { st with score := s } hrest
        refine ⟨st2, hok, ?_,
          fun hall => h2 (forall_attr_tail hall),
          fun hall => h3 (forall_attr_tail hall),
          fun hall => h4 (forall_attr_tail hall),
          fun hall => h5 (forall_attr_tail hall)⟩
        intro hall
        have := hall a (List.mem_cons_self _ _) hk6
        rw [hp] at this
        cases this
    rw [if_neg hk6]
    by_cases hk7 : a.key = "data-comments-count"
    · rw [if_pos hk7]
      cases hp : goAtoi a.val with
      | none =>
        obtain ⟨st2, hok, h1, h2, h3, h4, h5⟩ := ih st hrest
        exact ⟨st2, hok,
          fun hall => h1 (forall_attr_tail hall),
          fun hall => h2 (forall_attr_tail hall),
          fun hall => h3 (forall_attr_tail hall),
          fun hall => h4 (forall_attr_tail hall),
          fun hall => h5 (forall_attr_tail hall)⟩
      | some cc =>
        obtain ⟨st2, hok, h1, h2, h3, h4, h5⟩ := ih { st with commentCount := cc } hrest
        refine ⟨st2, hok,
          fun hall => h1 (forall_attr_tail hall),
          fun hall => h2 (forall_attr_tail hall), ?_,
          fun hall => h4 (forall_attr_tail hall),
          fun hall => h5 (forall_attr_tail hall)⟩
        intro hall
        have := hall a (List.mem_cons_self _ _) hk7
        rw [hp] at this
        cases this
    rw [if_neg hk7]
    by_cases hk8 : a.key = "data-url"
    · rw [if_pos hk8]
      obtain ⟨st2, hok, h1, h2, h3, h4, h5⟩ := ih { st with postLink := a.val } hrest
      exact ⟨st2, hok,
        fun hall => h1 (forall_attr_tail hall),
        fun hall => h2 (forall_attr_tail hall),
        fun hall => h3 (forall_attr_tail hall),
        fun hall => h4 (forall_attr_tail hall),
        fun hall => h5 (forall_attr_tail hall)⟩
    rw [if_neg hk8]
    by_cases hk9 : a.key = "data-spoiler"
    · rw [if_pos hk9]
      cases hp : goParseBool a.val with
      | none =>
        obtain ⟨st2, hok, h1, h2, h3, h4, h5⟩ := ih st hrest
        exact ⟨st2, hok,
          fun hall => h1 (forall_attr_tail hall),
          fun hall => h2 (forall_attr_tail hall),
          fun hall => h3 (forall_attr_tail hall),
          fun hall => h4 (forall_attr_tail hall),
          fun hall => h5 (forall_attr_tail hall)⟩
      | some sp =>
        obtain ⟨st2, hok, h1, h2, h3, h4, h5⟩ := ih { st with isSpoiler := sp } hrest
        refine ⟨st2, hok,
          fun hall => h1 (forall_attr_tail hall),
          fun hall => h2 (forall_attr_tail hall),
          fun hall => h3 (forall_attr_tail hall), ?_,
          fun hall => h5 (forall_attr_tail hall)⟩
        intro hall
        have := hall a (List.mem_cons_self _ _) hk9
        rw [hp] at this
        cases this
    rw [if_neg hk9]
    by_cases hk10 : a.key = "data-nsfw"
    · rw [if_pos hk10]
      cases hp : goParseBool a.val with
      | none =>
        obtain ⟨st2, hok, h1, h2, h3, h4, h5⟩ := ih st hrest
        exact ⟨st2, hok,
          fun hall => h1 (forall_attr_tail hall),
          fun hall => h2 (forall_attr_tail hall),
          fun hall => h3 (forall_attr_tail hall),
          fun hall => h4 (forall_attr_tail hall),
          fun hall => h5 (forall_attr_tail hall)⟩
      | some nsfw =>
        obtain ⟨st2, hok, h1, h2, h3, h4, h5⟩ := ih { st with isNSFW := nsfw } hrest
        refine ⟨st2, hok,
          fun hall => h1 (forall_attr_tail hall),
          fun hall => h2 (forall_attr_tail hall),
          fun hall => h3 (forall_attr_tail hall),
          fun hall => h4 (forall_attr_tail hall), ?_⟩
        intro hall
        have := hall a (List.mem_cons_self _ _) hk10
        rw [hp] at this
        cases this
    rw [if_neg hk10]
    have hk11 : ¬ a.key = "data-adserver-impression-id" := by
      intro hk
      exact hna (Or.inr hk)
    rw [if_neg hk11]
    obtain ⟨st2, hok, h1, h2, h3, h4, h5⟩ := ih st hrest
    exact ⟨st2, hok,
      fun hall => h1 (forall_attr_tail hall),
      fun hall => h2 (forall_attr_tail hall),
      fun hall => h3 (forall_attr_tail hall),
      fun hall => h4 (forall_attr_tail hall),
      fun hall => h5 (forall_attr_tail hall)⟩

-- ------------------------------------------------------------------- --
-- Specification-side classification rules.
-- ------------------------------------------------------------------- --

/-- Modelled from the spec's classification rules (§4.2 step 5): ordered
first-match-wins rules over the canonical post URL alone. -/
def classifySpecRules (u : String) : FeedPostType :=
  if goHasLeading u "/r/" then FeedPostType.text
  else if goHasTrailing u ".jpg" || goHasTrailing u ".png" then FeedPostType.image
  else if goHasLeading u "https://www.reddit.com/gallery/" then FeedPostType.gallery
  else if goHasLeading u "https://v.reddit.com/" ||
          goHasLeading u "https://v.redd.it/" then FeedPostType.video
  else FeedPostType.link

-- =================================================================== --
-- Claim theorems
-- =================================================================== --

/-- C2: the content classification of a feed post is a pure function of
its canonical post URL alone, computed by the ordered first-match-wins
rules `/r/` prefix → text; `.jpg`/`.png` suffix → image;
`https://www.reddit.com/gallery/` prefix → gallery;
`https://v.reddit.com/` or `https://v.redd.it/` prefix → video;
otherwise link. -/
theorem classify_pure_url_rules :
    (∀ post : FeedPost, classifyFeedPost post = classifySpecRules post.postLink) ∧
    (∀ p q : FeedPost, p.postLink = q.postLink →
      classifyFeedPost p = classifyFeedPost q) := by
  have hrules : ∀ post : FeedPost, classifyFeedPost post = classifySpecRules post.postLink :=
    fun post => rfl
  refine ⟨hrules, fun p q h => ?_⟩
  rw [hrules p, hrules q, h]

/-- Two posts sharing a canonical URL but differing elsewhere, to
exercise `classify_pure_url_rules`. -/
def c2postA : FeedPost :=
  { id := "t3_a", type := FeedPostType.link, title := "first", op := "alice",
    subreddit := "pics", timestamp := GoTime.zeroTime, score := 10, commentCount := 3,
    thumbnailLink := "", postLink := "https://example.com/x.png", commentsLink := "",
    isSpoiler := false, isNSFW := false }

/-- Companion concrete post for `classify_pure_url_rules_witness`. -/
def c2postB : FeedPost :=
  { id := "t3_b", type := FeedPostType.text, title := "second", op := "bob",
    subreddit := "funny", timestamp := GoTime.fromUnixMilliUTC 1700000000000, score := -5,
    commentCount := 0, thumbnailLink := "th", postLink := "https://example.com/x.png",
    commentsLink := "cl", isSpoiler := true, isNSFW := true }

theorem classify_pure_url_rules_witness :
    classifyFeedPost c2postA = classifyFeedPost c2postB ∧
    classifyFeedPost c2postA = FeedPostType.image :=
  ⟨classify_pure_url_rules.2 c2postA c2postB rfl,
   (classify_pure_url_rules.1 c2postA).trans (by decide)⟩

/-- First child of the C3 counterexample tree (pre-order-first match). -/
def c3childA : HNode := HNode.mk NodeType.elementNode "a" "a" [{ key := "id", val := "1" }] []

/-- Second child of the C3 counterexample tree. -/
def c3childB : HNode := HNode.mk NodeType.elementNode "a" "a" [{ key := "id", val := "2" }] []

/-- A root with two matching children, exposing the visit order of
`DepthFirstSearch`. -/
def c3root : HNode := HNode.mk NodeType.elementNode "div" "div" [] [c3childA, c3childB]

/-- C3 counterexample: on a root with two matching anchor children,
`DepthFirstSearch` returns the SECOND child (`id="2"`), while the
standard left-to-right pre-order search required by the claim returns
the first (`id="1"`); so `DepthFirstSearch` does not visit the first
child of the popped node before its later siblings. -/
theorem dfs_preorder_counterexample :
    (DepthFirstSearch c3root (IsTag "a") RecurseAlways).map
        (fun n => (GetAttribute n "id").1) = some "2" ∧
    (dfsSpecLTR (IsTag "a") RecurseAlways c3root).map
        (fun n => (GetAttribute n "id").1) = some "1" ∧
    DepthFirstSearch c3root (IsTag "a") RecurseAlways ≠
      dfsSpecLTR (IsTag "a") RecurseAlways c3root := by
  have h1 : (DepthFirstSearch c3root (IsTag "a") RecurseAlways).map
      (fun n => (GetAttribute n "id").1) = some "2" := by
    simp [DepthFirstSearch, dfsLoop_eq_seekRTL, dfsSeekRTL, dfsSpecRTL, orElseO, expand,
      expandOK, IsTag, RecurseAlways, c3root, c3childA, c3childB, HNode.type, HNode.tagAtom,
      HNode.children, HNode.attrs, GetAttribute, getAttrGo]
  have h2 : (dfsSpecLTR (IsTag "a") RecurseAlways c3root).map
      (fun n => (GetAttribute n "id").1) = some "1" := by
    simp [dfsSpecLTR, dfsSeekLTR, orElseO, expand, expandOK, IsTag, RecurseAlways, c3root,
      c3childA, c3childB, HNode.type, HNode.tagAtom, HNode.children, HNode.attrs,
      GetAttribute, getAttrGo]
  refine ⟨h1, h2, fun h => ?_⟩
  rw [h] at h1
  rw [h1] at h2
  simp at h2

/-- C3 amended: `DepthFirstSearch` visits nodes in pre-order with the
children of the currently popped node explored RIGHT-to-left (the last
child's subtree is examined before earlier siblings'), because children
are pushed first-to-last and popped from the top of the stack; when
several descendants match, the right-to-left pre-order-first one is
returned. -/
theorem dfs_visits_children_right_to_left
    (root : HNode) (criteria recurseIf : SearchCriteria) :
    DepthFirstSearch root criteria recurseIf = dfsSpecRTL criteria recurseIf root := by
  unfold DepthFirstSearch
  rw [dfsLoop_eq_seekRTL]
  simp only [dfsSeekRTL, orElseO]

/-- C4: the pruning law.  Every node visited (popped) or returned by
either search is connected to the root by a chain in which every
interior node is the document sentinel or satisfies the descend
predicate, and does not match.  Consequently a visited node that is not
the document sentinel, does not satisfy `shouldDescendInto`, and does
not match never has any proper descendant visited or returned: such a
node can never be the interior node of a chain. -/
theorem search_pruning_law (root : HNode) (criteria recurseIf : SearchCriteria) :
    (∀ v ∈ bfsVisited root criteria recurseIf, SearchReach criteria recurseIf root v) ∧
    (∀ v ∈ dfsVisited root criteria recurseIf, SearchReach criteria recurseIf root v) ∧
    (∀ m, BreadthFirstSearch root criteria recurseIf = some m →
      SearchReach criteria recurseIf root m) ∧
    (∀ m, DepthFirstSearch root criteria recurseIf = some m →
      SearchReach criteria recurseIf root m) := by
  refine ⟨?_, ?_, ?_, ?_⟩
  · intro v hv
    exact reachFrom_singleton.mp (bfsVisitGo_reach criteria recurseIf [root] v hv)
  · intro v hv
    exact reachFrom_singleton.mp (dfsVisitLoop_reach criteria recurseIf [root] v hv)
  · intro m h
    exact reachFrom_singleton.mp (bfsGo_some_reach criteria recurseIf [root] m h).2
  · intro m h
    exact reachFrom_singleton.mp (dfsLoop_some_reach criteria recurseIf [root] m h).2

/-- Child node of the C4 witness tree. -/
def c4child : HNode := HNode.mk NodeType.elementNode "p" "p" [] []

/-- Root node of the C4 witness tree. -/
def c4root : HNode := HNode.mk NodeType.elementNode "div" "div" [] [c4child]

theorem search_pruning_law_witness :
    SearchReach (IsTag "p") RecurseAlways c4root c4child :=
  (search_pruning_law c4root (IsTag "p") RecurseAlways).2.2.1 c4child (by
    simp [BreadthFirstSearch, bfsGo, expand, expandOK, IsTag, RecurseAlways, c4root, c4child,
      HNode.type, HNode.tagAtom, HNode.children])

/-- C5: the two searches agree on failure: breadth-first fails iff
depth-first fails; whenever either returns a node, that node satisfies
the match predicate and is reachable from the root under the descend
policy; and if the descend policy cuts off every matching node, both
fail. -/
theorem bfs_dfs_find_agreement (root : HNode) (criteria recurseIf : SearchCriteria) :
    (BreadthFirstSearch root criteria recurseIf = none ↔
      DepthFirstSearch root criteria recurseIf = none) ∧
    (∀ m, BreadthFirstSearch root criteria recurseIf = some m →
      criteria m = true ∧ DescendReach recurseIf root m) ∧
    (∀ m, DepthFirstSearch root criteria recurseIf = some m →
      criteria m = true ∧ DescendReach recurseIf root m) ∧
    ((∀ m, DescendReach recurseIf root m → criteria m = false) →
      BreadthFirstSearch root criteria recurseIf = none ∧
        DepthFirstSearch root criteria recurseIf = none) := by
  have hb := bfsGo_none_iff criteria recurseIf [root]
  have hd := dfsLoop_none_iff criteria recurseIf [root]
  refine ⟨?_, ?_, ?_, ?_⟩
  · unfold BreadthFirstSearch DepthFirstSearch
    rw [hb, hd]
  · intro m h
    obtain ⟨hm, hr⟩ := bfsGo_some_reach criteria recurseIf [root] m h
    exact ⟨hm, SearchReach.toDescend (reachFrom_singleton.mp hr)⟩
  · intro m h
    obtain ⟨hm, hr⟩ := dfsLoop_some_reach criteria recurseIf [root] m h
    exact ⟨hm, SearchReach.toDescend (reachFrom_singleton.mp hr)⟩
  · intro hprune
    have hnone : ∀ m, criteria m = true → ¬ ReachFrom criteria recurseIf [root] m := by
      intro m hm hr
      have := hprune m (SearchReach.toDescend (reachFrom_singleton.mp hr))
      rw [hm] at this
      cases this
    exact ⟨hb.mpr hnone, hd.mpr hnone⟩

/-- Matching grandchild of the C5 witness tree. -/
def c5leaf : HNode := HNode.mk NodeType.elementNode "span" "span" [] []

/-- Intermediate node of the C5 witness tree. -/
def c5mid : HNode := HNode.mk NodeType.elementNode "div" "div" [] [c5leaf]

/-- Root of the C5 witness tree. -/
def c5root : HNode := HNode.mk NodeType.elementNode "body" "body" [] [c5mid]

theorem bfs_dfs_find_agreement_witness :
    IsTag "span" c5leaf = true ∧ DescendReach RecurseAlways c5root c5leaf :=
  (bfs_dfs_find_agreement c5root (IsTag "span") RecurseAlways).2.1 c5leaf (by
    simp [BreadthFirstSearch, bfsGo, expand, expandOK, IsTag, RecurseAlways, c5root, c5mid,
      c5leaf, HNode.type, HNode.tagAtom, HNode.children])

/-- A padding child (`class="clearleft"`): a qualifying-post-free
container for the C1 failing input. -/
def c1spacer : HNode :=
  HNode.mk NodeType.elementNode "div" "div" [{ key := "class", val := "clearleft" }] []

/-- A `siteTable` container whose only child is a spacer, so extraction
yields zero posts. -/
def c1siteTable : HNode :=
  HNode.mk NodeType.elementNode "div" "div" [{ key := "id", val := "siteTable" }] [c1spacer]

/-- A whole document whose feed has zero qualifying posts. -/
def c1doc : HNode := HNode.mk NodeType.documentNode "" "" [] [c1siteTable]

/-- C1: the continuation token IS derived from the ID of the last post
(`posts[len(posts)-1].ID`), but the empty sequence is NOT guarded: on a
document whose posts container yields zero qualifying children,
extraction succeeds with an empty post list and the feed-construction
step then indexes `posts[len(posts)-1]` past the end of the empty
slice — an out-of-range panic, modelled by `none` — instead of handling
the case explicitly. -/
theorem feed_empty_posts_out_of_range :
    getFeedPosts c1doc = some (Except.ok []) ∧
    feedNextPage defaultFeedOpts [] = none ∧
    feedFromDocument defaultFeedOpts c1doc = none := by
  have hposts : getFeedPosts c1doc = some (Except.ok []) := by
    simp [getFeedPosts, getSiteTable, BreadthFirstSearch, bfsGo, expand, expandOK,
      siteTableCriteria, siteTableRecurse, Crit.And, Crit.Not, IsTag, HasAttributeWithValue,
      collectPosts, tryParseFeedPost, attrLoop, initParseState, c1doc, c1siteTable, c1spacer,
      HNode.type, HNode.tagAtom, HNode.children, HNode.attrs]
  refine ⟨hposts, rfl, ?_⟩
  simp only [feedFromDocument, hposts]
  rfl

/-- C6: extraction fails with the `ContainerNotFound` error (the
wrapping of the search-failed outcome) exactly when the breadth-first
search — whose recursion policy refuses to descend into `<head>` —
finds no `div` with `id="siteTable"`; and that wrapped error is the
only error extraction can return for a page. -/
theorem extraction_container_failure (doc : HNode) :
    (getFeedPosts doc =
        some (Except.error (GoErr.wrapped "site table not found" GoErr.searchFailed)) ↔
      BreadthFirstSearch doc siteTableCriteria siteTableRecurse = none) ∧
    (∀ e, getFeedPosts doc = some (Except.error e) →
      e = GoErr.wrapped "site table not found" GoErr.searchFailed) := by
  cases hb : BreadthFirstSearch doc siteTableCriteria siteTableRecurse with
  | none =>
    have hg : getFeedPosts doc =
        some (Except.error (GoErr.wrapped "site table not found" GoErr.searchFailed)) := by
      unfold getFeedPosts getSiteTable
      rw [hb]
    refine ⟨⟨fun _ => rfl, fun _ => hg⟩, ?_⟩
    intro e he
    rw [hg] at he
    have h1 := Option.some.inj he
    injection h1 with h2
    exact h2.symm
  | some st =>
    have hg : getFeedPosts doc = (collectPosts st.children).map Except.ok := by
      unfold getFeedPosts getSiteTable
      rw [hb]
    have hng : ∀ e, getFeedPosts doc ≠ some (Except.error e) := by
      intro e he
      rw [hg] at he
      cases hc : collectPosts st.children with
      | none => rw [hc] at he; cases he
      | some ps => rw [hc] at he; simp at he
    exact ⟨⟨fun h => absurd h (hng _), fun h => Option.noConfusion h⟩,
      fun e he => absurd he (hng e)⟩

/-- A document with no `siteTable` container at all, for the C6
witness. -/
def c6doc : HNode := HNode.mk NodeType.elementNode "p" "p" [] []

theorem extraction_container_failure_witness :
    getFeedPosts c6doc =
      some (Except.error (GoErr.wrapped "site table not found" GoErr.searchFailed)) :=
  (extraction_container_failure c6doc).1.mpr (by
    simp [BreadthFirstSearch, bfsGo, expand, expandOK, siteTableCriteria, siteTableRecurse,
      Crit.And, Crit.Not, IsTag, HasAttributeWithValue, c6doc, HNode.type, HNode.tagAtom,
      HNode.children, HNode.attrs])

/-- C7: on a candidate child carrying no skip marker, per-field parse
failures are never propagated: extraction never returns an error, and
(whenever the title lookup does not panic) it produces a record in
which every data attribute whose occurrences all fail to parse keeps
its zero value. -/
theorem field_parse_failures_tolerated (n : HNode) (hns : NoSkipAttrs n) :
    (∀ e, tryParseFeedPost n ≠ some (Except.error e)) ∧
    (findTitle n ≠ none →
      ∃ p, tryParseFeedPost n = some (Except.ok p) ∧
        ((∀ a ∈ n.attrs, a.key = "data-score" → goAtoi a.val = none) → p.score = 0) ∧
        ((∀ a ∈ n.attrs, a.key = "data-timestamp" → goParseInt64 a.val = none) →
          p.timestamp = GoTime.zeroTime) ∧
        ((∀ a ∈ n.attrs, a.key = "data-comments-count" → goAtoi a.val = none) →
          p.commentCount = 0) ∧
        ((∀ a ∈ n.attrs, a.key = "data-spoiler" → goParseBool a.val = none) →
          p.isSpoiler = false) ∧
        ((∀ a ∈ n.attrs, a.key = "data-nsfw" → goParseBool a.val = none) →
          p.isNSFW = false)) := by
  obtain ⟨st2, hok, h1, h2, h3, h4, h5⟩ := attrLoop_fields n.attrs initParseState hns
  constructor
  · intro e he
    cases hft : findTitle n with
    | none =>
      simp only [tryParseFeedPost, hok, hft] at he
      cases he
    | some tr =>
      simp only [tryParseFeedPost, hok, hft] at he
      simp at he
  · intro hft
    cases hftv : findTitle n with
    | none => exact absurd hftv hft
    | some tr =>
      simp only [tryParseFeedPost, hok, hftv]
      exact ⟨_, rfl, fun hall => h1 hall, fun hall => h2 hall, fun hall => h3 hall,
        fun hall => h4 hall, fun hall => h5 hall⟩

/-- A candidate child whose every data attribute is present but
malformed, for the C7 witness. -/
def c7node : HNode :=
  HNode.mk NodeType.elementNode "div" "div"
    [{ key := "data-fullname", val := "t3_x" },
     { key := "data-score", val := "abc" },
     { key := "data-timestamp", val := "not-a-number" },
     { key := "data-comments-count", val := "12bad" },
     { key := "data-spoiler", val := "yes" },
     { key := "data-nsfw", val := "2" }] []

theorem field_parse_failures_tolerated_witness :
    ∃ p, tryParseFeedPost c7node = some (Except.ok p) ∧ p.score = 0 ∧
      p.timestamp = GoTime.zeroTime ∧ p.commentCount = 0 ∧ p.isSpoiler = false ∧
      p.isNSFW = false := by
  obtain ⟨p, hp, hs, ht, hc, hsp, hn⟩ :=
    (field_parse_failures_tolerated c7node (by unfold NoSkipAttrs SkipAttr; decide)).2 (by
      have : findTitle c7node = some (Except.error GoErr.titleNotFound) := by
        unfold findTitle
        rw [show DepthFirstSearch c7node titleCriteria RecurseAlways = none from by
          simp [DepthFirstSearch, dfsLoop_eq_seekRTL, dfsSeekRTL, dfsSpecRTL, orElseO,
            expand, expandOK, titleCriteria, Crit.And, IsTag, HasAttributeWithValueRegex,
            RecurseAlways, c7node, HNode.type, HNode.tagAtom, HNode.children, HNode.attrs]]
      rw [this]
      exact fun h => Option.noConfusion h)
  exact ⟨p, hp, hs (by decide), ht (by decide), hc (by decide), hsp (by decide),
    hn (by decide)⟩

/-- C8: a candidate child that is not skipped and has none of the three
optional descendant structures (no title anchor, no thumbnail anchor,
no comments-link list) still yields exactly one record, with the title,
thumbnail URL, and comments URL empty. -/
theorem missing_optionals_still_one_record (n : HNode) (hns : NoSkipAttrs n)
    (ht : DepthFirstSearch n titleCriteria RecurseAlways = none)
    (hh : BreadthFirstSearch n thumbnailCriteria RecurseAlways = none)
    (hu : BreadthFirstSearch n (IsTag "ul") RecurseAlways = none) :
    ∃ p, tryParseFeedPost n = some (Except.ok p) ∧
      p.title = "" ∧ p.thumbnailLink = "" ∧ p.commentsLink = "" := by
  obtain ⟨st2, hok, _, _, _, _, _⟩ := attrLoop_fields n.attrs initParseState hns
  have hft : findTitle n = some (Except.error GoErr.titleNotFound) := by
    simp only [findTitle, ht]
  have hfh : findThumbnailLink n = Except.error GoErr.thumbnailNotFound := by
    simp only [findThumbnailLink, hh]
  have hfc : findCommentsLink n = Except.error GoErr.commentsNotFound := by
    simp only [findCommentsLink, hu]
  simp only [tryParseFeedPost, hok, hft, hfh, hfc]
  exact ⟨_, rfl, rfl, rfl, rfl⟩

/-- A candidate child with data attributes but no descendants at all,
for the C8 witness. -/
def c8node : HNode :=
  HNode.mk NodeType.elementNode "div" "div" [{ key := "data-fullname", val := "t3_y" }] []

theorem missing_optionals_still_one_record_witness :
    ∃ p, tryParseFeedPost c8node = some (Except.ok p) ∧
      p.title = "" ∧ p.thumbnailLink = "" ∧ p.commentsLink = "" :=
  missing_optionals_still_one_record c8node (by unfold NoSkipAttrs SkipAttr; decide)
    (by simp [DepthFirstSearch, dfsLoop_eq_seekRTL, dfsSeekRTL, dfsSpecRTL, orElseO, expand,
      expandOK, titleCriteria, Crit.And, IsTag, HasAttributeWithValueRegex, RecurseAlways,
      c8node, HNode.type, HNode.tagAtom, HNode.children, HNode.attrs])
    (by simp [BreadthFirstSearch, bfsGo, expand, expandOK, thumbnailCriteria, Crit.And,
      IsTag, HasAttributeWithValueRegex, RecurseAlways, c8node, HNode.type, HNode.tagAtom,
      HNode.children, HNode.attrs])
    (by simp [BreadthFirstSearch, bfsGo, expand, expandOK, IsTag, RecurseAlways, c8node,
      HNode.type, HNode.tagAtom, HNode.children])

/-- C9: when the title lookup's depth-first search finds an anchor
whose class matches the title pattern but that anchor has no first
child, `findTitle` dereferences the nil `FirstChild` pointer — a panic,
modelled by `none` — and the panic propagates through the per-record
extraction instead of degrading to an empty title. -/
theorem childless_title_anchor_panics (n tn : HNode) (hns : NoSkipAttrs n)
    (hdfs : DepthFirstSearch n titleCriteria RecurseAlways = some tn)
    (hch : tn.children = []) :
    findTitle n = none ∧ tryParseFeedPost n = none := by
  have hft : findTitle n = none := by
    simp only [findTitle, hdfs, hch, List.head?]
  refine ⟨hft, ?_⟩
  obtain ⟨st2, hok, _, _, _, _, _⟩ := attrLoop_fields n.attrs initParseState hns
  simp only [tryParseFeedPost, hok, hft]

/-- A title anchor with no children, for the C9 witness. -/
def c9anchor : HNode :=
  HNode.mk NodeType.elementNode "a" "a" [{ key := "class", val := "title may-blank" }] []

/-- A candidate child containing only the childless title anchor. -/
def c9node : HNode := HNode.mk NodeType.elementNode "div" "div" [] [c9anchor]

theorem childless_title_anchor_panics_witness :
    findTitle c9node = none ∧ tryParseFeedPost c9node = none :=
  childless_title_anchor_panics c9node c9anchor (by unfold NoSkipAttrs SkipAttr; decide)
    (by simp [DepthFirstSearch, dfsLoop_eq_seekRTL, dfsSeekRTL, dfsSpecRTL, orElseO, expand,
      expandOK, titleCriteria, Crit.And, IsTag, HasAttributeWithValueRegex, RecurseAlways,
      regexpMatchString, unanchoredMatch, prefixMatch, parsePat, tokMatch, c9node, c9anchor,
      HNode.type, HNode.tagAtom, HNode.children, HNode.attrs])
    rfl

/-- C10: for every found thumbnail image, the returned link is
`"https://"` prepended to the image's `src` with one leading `"//"`
removed; the prefixing is unconditional, so a `src` that already
carries a scheme (hence does not start with `"//"`) is returned as
`"https://" ++ src`, a doubled-scheme URL. -/
theorem thumbnail_scheme_unconditional (n a i : HNode)
    (ha : BreadthFirstSearch n thumbnailCriteria RecurseAlways = some a)
    (hi : BreadthFirstSearch a imgCriteria RecurseAlways = some i) :
    findThumbnailLink n =
      Except.ok ("https://" ++ trimLeading (GetAttribute i "src").1 "//") ∧
    (goHasLeading (GetAttribute i "src").1 "//" = false →
      findThumbnailLink n = Except.ok ("https://" ++ (GetAttribute i "src").1)) := by
  have h1 : findThumbnailLink n =
      Except.ok ("https://" ++ trimLeading (GetAttribute i "src").1 "//") := by
    simp only [findThumbnailLink, ha, hi]
  refine ⟨h1, fun hsw => ?_⟩
  rw [h1]
  simp only [trimLeading, hsw]
  rfl

/-- A thumbnail image whose `src` already carries an explicit scheme,
for the C10 witness. -/
def c10img : HNode :=
  HNode.mk NodeType.elementNode "img" "img"
    [{ key := "src", val := "http://example.com/t.png" }] []

/-- A thumbnail anchor wrapping the image. -/
def c10anchor : HNode :=
  HNode.mk NodeType.elementNode "a" "a"
    [{ key := "class", val := "thumbnail may-blank" }] [c10img]

theorem thumbnail_scheme_unconditional_witness :
    findThumbnailLink c10anchor = Except.ok "https://http://example.com/t.png" := by
  have h := (thumbnail_scheme_unconditional c10anchor c10anchor c10img
    (by simp [BreadthFirstSearch, bfsGo, expand, expandOK, thumbnailCriteria, Crit.And,
      IsTag, HasAttributeWithValueRegex, RecurseAlways, regexpMatchString, unanchoredMatch,
      prefixMatch, parsePat, tokMatch, c10anchor, c10img, HNode.type, HNode.tagAtom,
      HNode.children, HNode.attrs])
    (by simp [BreadthFirstSearch, bfsGo, expand, expandOK, imgCriteria, Crit.And, IsTag,
      HasAttribute, RecurseAlways, c10anchor, c10img, HNode.type, HNode.tagAtom,
      HNode.children, HNode.attrs])).2 (by decide)
  rw [h]
  exact congrArg Except.ok (by decide)

end RV
